import Mathlib

/-!
Shallow embedding of the `mdmv` move-planning and execution engine
(`internal/file.go` and `main.go`) over an idealized filesystem model.

Modelling conventions:
* Paths are plain strings; the path algebra (`cleanPath`, `joinPath`,
  `dirPath`, `basePath`, `extPath`) mirrors Go's `path/filepath` on a
  Unix-like system (`filepath.Separator = '/'`).
* The filesystem is a pair of path sets (files, directories) represented
  as lists with set semantics; `Rename`, `MkdirAll`, `Remove` act on it.
  Operations are total except where the Go code can observably fail:
  renaming a missing source fails, and `MkdirAll` fails when a path
  component is an existing file.  Other failure modes of a real OS
  (permissions, I/O errors) have no counterpart in the idealized model.
* `log.Printf` calls are modelled as log strings only where a claim's
  observable behaviour depends on them (the attachment-missing warning);
  purely diagnostic logs are dropped.
* Go's `strings.ToLower` is modelled on ASCII (`Char.toLower`).
-/

namespace Mdmv

/-! ### Path algebra (Go `path/filepath`, Unix rules) -/

/-- Split a character list on `'/'` (kernel-reducible replacement for
`String.splitOn "/"`); `acc` holds the current segment reversed. -/
def splitSlashAux : List Char → List Char → List String
  | [], acc => [⟨acc.reverse⟩]
  | c :: rest, acc =>
    if c = '/' then ⟨acc.reverse⟩ :: splitSlashAux rest []
    else splitSlashAux rest (c :: acc)

/-- Join path components with `'/'`. -/
def intercalateSlash : List String → String
  | [] => ""
  | [x] => x
  | x :: rest => x ++ "/" ++ intercalateSlash rest

/-- Does the path start with a separator (absolute path)? -/
def pathIsAbs (p : String) : Bool :=
  match p.data with
  | '/' :: _ => true
  | _ => false

/-- Path components: split on `'/'`, dropping empty segments. -/
def pathComponents (p : String) : List String :=
  (splitSlashAux p.data []).filter (fun c => c ≠ "")

/-- One step of Go's `path.Clean` over components: `.` is dropped, `..`
pops the previous component (kept literally at the front of a relative
path, dropped at the root of an absolute one). -/
def cleanStep (abs : Bool) (acc : List String) (c : String) : List String :=
  if c = "." then acc
  else if c = ".." then
    match acc.getLast? with
    | none => if abs then [] else [".."]
    | some a => if a = ".." then acc ++ [".."] else acc.dropLast
  else acc ++ [c]

/-- Reassemble cleaned components: absolute paths get a leading slash, an
empty relative result is `"."`. -/
def cleanPathAux (abs : Bool) (comps : List String) : String :=
  if abs then "/" ++ intercalateSlash comps
  else if comps = [] then "." else intercalateSlash comps

/-- Go `filepath.Clean` (Unix): lexical simplification of a path. -/
def cleanPath (p : String) : String :=
  cleanPathAux (pathIsAbs p) ((pathComponents p).foldl (cleanStep (pathIsAbs p)) [])

/-- Go `filepath.Join` restricted to two elements: empty elements are
dropped, the result is cleaned; all-empty input gives `""`. -/
def joinPath (a b : String) : String :=
  if a = "" && b = "" then ""
  else if a = "" then cleanPath b
  else if b = "" then cleanPath a
  else cleanPath (a ++ "/" ++ b)

/-- Go `filepath.Dir`: everything up to the final separator, cleaned
(`"."` when there is no separator). -/
def dirPath (p : String) : String :=
  cleanPath ⟨(p.data.reverse.dropWhile (fun c => c ≠ '/')).reverse⟩

/-- Go `filepath.Base`: last element after trailing separators are
removed; `"."` for the empty path, `"/"` for an all-separator path. -/
def basePath (p : String) : String :=
  if p = "" then "."
  else
    let r := p.data.reverse.dropWhile (fun c => c = '/')
    if r = [] then "/"
    else ⟨(r.takeWhile (fun c => c ≠ '/')).reverse⟩

/-- Go `filepath.Ext`: the suffix starting at the final dot in the final
path element; `""` when that element has no dot. -/
def extPath (p : String) : String :=
  let seg := p.data.reverse.takeWhile (fun c => c ≠ '/')
  if seg.contains '.' then ⟨((seg.takeWhile (fun c => c ≠ '.')) ++ ['.']).reverse⟩
  else ""

/-! ### String helpers (Go `strings`) -/

/-- Go `strings.ToLower`, restricted to ASCII case mapping. -/
def toLowerStr (s : String) : String := ⟨s.data.map Char.toLower⟩

/-- Go `strings.TrimSuffix`. -/
def trimSuffixStr (s suf : String) : String :=
  if suf.data.isSuffixOf s.data then ⟨s.data.take (s.data.length - suf.data.length)⟩
  else s

/-- Substring search over character lists: does `pat` occur inside `l`? -/
def containsChars (pat : List Char) : List Char → Bool
  | [] => pat.isEmpty
  | c :: rest => pat.isPrefixOf (c :: rest) || containsChars pat rest

/-- Go `strings.Contains`. -/
def containsSubstr (s pat : String) : Bool := containsChars pat.data s.data

/-- Replace the first occurrence of `pat` in a character list. -/
def replFirst (pat rep : List Char) : List Char → List Char
  | [] => []
  | c :: rest =>
    if pat.isPrefixOf (c :: rest) then rep ++ (c :: rest).drop pat.length
    else c :: replFirst pat rep rest

/-- Go `strings.Replace(s, pat, rep, 1)`: first occurrence only (for an
empty pattern Go inserts at the start). -/
def replaceFirstStr (s pat rep : String) : String :=
  if pat = "" then rep ++ s else ⟨replFirst pat.data rep.data s.data⟩

/-! ### Idealized filesystem -/

/-- A filesystem snapshot: the set of file paths and the set of directory
paths, as lists with set semantics.  The roots `"."` and `"/"` always
exist as directories. -/
structure Fs where
  files : List String
  dirs : List String
deriving DecidableEq, Repr

/-- `afero.Exists`: the path names an existing file or directory. -/
def Fs.existsB (fs : Fs) (p : String) : Bool :=
  fs.files.contains p || fs.dirs.contains p || p = "." || p = "/"

/-- `afero.DirExists`: the path names an existing directory. -/
def Fs.dirExistsB (fs : Fs) (p : String) : Bool :=
  fs.dirs.contains p || p = "." || p = "/"

/-- `isDir` (main.go): `Stat` succeeds and reports a directory. -/
def Fs.isDirB (fs : Fs) (p : String) : Bool := fs.dirExistsB p

/-- `afero.IsEmpty` for a directory: no file and no other directory has it
as parent. -/
def Fs.isEmptyDir (fs : Fs) (d : String) : Bool :=
  fs.files.all (fun p => dirPath p ≠ d) &&
    fs.dirs.all (fun p => p = d || dirPath p ≠ d)

/-- `Fs.Rename` on a file: fails when the source file is missing,
otherwise moves it, silently overwriting any file at the destination
(Go `os.Rename` semantics; directory renames do not arise in the
covered claims). -/
def Fs.rename (fs : Fs) (src dst : String) : Option Fs :=
  if fs.files.contains src then
    some { fs with files := dst :: fs.files.filter (fun p => p ≠ src && p ≠ dst) }
  else none

/-- The directory and its ancestors, outermost last, stopping at a root.
The fuel argument only bounds the recursion; `dirPath` strictly shortens
a path until a root is reached, so `d.length + 1` steps always suffice. -/
def parentChain : Nat → String → List String
  | 0, _ => []
  | n + 1, d =>
    if d = "." || d = "/" || d = "" then []
    else d :: parentChain n (dirPath d)

/-- `Fs.MkdirAll`: creates the directory and all missing ancestors;
fails when one of them is an existing file. -/
def Fs.mkdirAll (fs : Fs) (dir : String) : Option Fs :=
  if (parentChain (dir.length + 1) dir).any (fun d => fs.files.contains d) then none
  else some { fs with
    dirs := (parentChain (dir.length + 1) dir).filter (fun d => !fs.dirs.contains d) ++ fs.dirs }

/-- `Fs.Remove` of an (empty) directory. -/
def Fs.removeDir (fs : Fs) (d : String) : Fs :=
  { fs with dirs := fs.dirs.filter (fun p => p ≠ d) }

/-- `ensureDir` (file.go): create the destination file's parent directory
tree when it does not exist yet. -/
def ensureDir (fs : Fs) (dest : String) : Option Fs :=
  if fs.dirExistsB (dirPath dest) then some fs else fs.mkdirAll (dirPath dest)

/-! ### The Document (`File` struct) and the Document Parser -/

/-- `internal.File`: one Markdown document.  The `fs` field of the Go
struct is threaded explicitly through the operations instead. -/
structure File where
  path : String
  title : String
  attachments : List String
deriving DecidableEq, Repr

/-- `titleRe.FindString` for the regex `#+(.*)`: the leftmost match is the
substring from the first `'#'` of the line to the end of the line, and the
empty string when the line has no `'#'`. -/
def findTitleMatch (line : String) : String :=
  ⟨line.data.dropWhile (fun c => c ≠ '#')⟩

/-- `strings.TrimLeft(s, " #")`: drop leading spaces and `'#'`s. -/
def trimLeftSpaceHash (s : String) : String :=
  ⟨s.data.dropWhile (fun c => c = ' ' || c = '#')⟩

/-- The value the parser derives from one line:
`strings.TrimLeft(titleRe.FindString(line), " #")`. -/
def lineTitle (line : String) : String :=
  trimLeftSpaceHash (findTitleMatch line)

/-- The title component of `NewFile`'s scanning loop: the running title is
(re)assigned from a line only while it is still empty. -/
def scanTitle (lines : List String) : String :=
  lines.foldl (fun title line => if title = "" then lineTitle line else title) ""

/-! ### Errors and move results -/

/-- The observable failures of the engine.  Wrapping via `fmt.Errorf`
(`"failed to move ..."`) is dropped; only the failure itself is kept. -/
inductive MvError where
  | mkdirFailed (dir : String)
  | renameFailed (src dst : String)
  | noFilesToMove
  | moveMultiple
  | wrongTemplate
deriving DecidableEq, Repr

/-- Outcome of a move operation: the (possibly updated) document, the
filesystem, warning logs, and an error when the operation failed. -/
structure MoveOut where
  file : File
  fs : Fs
  logs : List String
  error : Option MvError
deriving DecidableEq, Repr

/-! ### `File.Move` (literal move) -/

/-- The attachment loop of `File.Move`: each attachment is renamed from
`<dir>/<attachment>` to `<dir-of-dest>/<attachment>` after its parent
directory is ensured; the first failure aborts with the state reached. -/
def moveAtts (fs : Fs) (dir destDir : String) : List String → Fs × Option MvError
  | [] => (fs, none)
  | attachment :: rest =>
    match ensureDir fs (joinPath destDir attachment) with
    | none => (fs, some (.mkdirFailed (joinPath destDir attachment)))
    | some fs1 =>
      match fs1.rename (joinPath dir attachment) (joinPath destDir attachment) with
      | none => (fs1, some (.renameFailed (joinPath dir attachment) (joinPath destDir attachment)))
      | some fs2 => moveAtts fs2 dir destDir rest

/-- `File.Move` (file.go): ensure the destination's directory, rename the
primary file, and—when the directory changed and attachments exist—move
every attachment.  The deferred `f.Path = dest` runs on every return path
after the primary rename succeeded, so both post-rename outcomes carry
`path := dest`; `dir` is read from the old path before that. -/
def File.Move (f : File) (fs : Fs) (dest : String) : MoveOut :=
  match ensureDir fs dest with
  | none => ⟨f, fs, [], some (.mkdirFailed dest)⟩
  | some fs1 =>
    match fs1.rename f.path dest with
    | none => ⟨f, fs1, [], some (.renameFailed f.path dest)⟩
    | some fs2 =>
      if dirPath f.path = dirPath dest || f.attachments.isEmpty then
        ⟨{ f with path := dest }, fs2, [], none⟩
      else
        match moveAtts fs2 (dirPath f.path) (dirPath dest) f.attachments with
        | (fs3, e) => ⟨{ f with path := dest }, fs3, [], e⟩

/-! ### `File.MoveToDir` (directory move) and `uniqueName` -/

/-- First capture group of `(?mU)(.*)_*\d*$` on `s`: with all quantifiers
lazy and the match anchored at the end, the group is `s` with its longest
trailing run of underscores-then-digits removed. -/
def stripTrailingNum (s : String) : String :=
  ⟨(((s.data.reverse).dropWhile (fun c => c.isDigit)).dropWhile (fun c => c = '_')).reverse⟩

/-- One iteration of the `uniqueName` loop body: lowercase the filename,
split off the extension, strip the trailing numeric group from the stem,
and append `_i` before the extension. -/
def nextCandidate (dest : String) (i : Nat) : String :=
  let file := basePath (toLowerStr dest)
  let ext := extPath file
  let stem := stripTrailingNum (trimSuffixStr file ext)
  joinPath (dirPath dest) (stem ++ "_" ++ toString i ++ ext)

/-- The `uniqueName` loop: while the candidate exists, build the next
candidate with an incremented suffix. -/
def uniqueNameAux (fs : Fs) : Nat → String → Nat → String
  | 0, dest, _ => dest
  | fuel + 1, dest, i =>
    if fs.existsB dest then uniqueNameAux fs fuel (nextCandidate dest i) (i + 1)
    else dest

/-- `File.uniqueName`: the destination path, suffixed until no file or
directory with the same name exists.  The Go loop runs until a free name
is found; from the second iteration on the candidates are pairwise
distinct, so `|files| + |dirs| + 2` iterations always suffice as fuel. -/
def uniqueName (fs : Fs) (dest : String) : String :=
  uniqueNameAux fs (fs.files.length + fs.dirs.length + 2) dest 1

/-- The collision-safe destination computed at the top of `MoveToDir`. -/
def moveToDirDest (f : File) (fs : Fs) (dirName : String) : String :=
  uniqueName fs (joinPath dirName (basePath f.path))

/-- The attachment loop of `MoveToDir`: a missing attachment source is
skipped with a warning; otherwise its directory is ensured and it is
renamed to `<dirName>/<attachment>`. -/
def mtdAtts (fs : Fs) (srcDir dirName : String) :
    List String → Fs × List String × Option MvError
  | [] => (fs, [], none)
  | attachment :: rest =>
    if fs.existsB (joinPath srcDir attachment) = false then
      match mtdAtts fs srcDir dirName rest with
      | (fs2, logs, e) =>
        (fs2, ("attachment is missing: " ++ joinPath srcDir attachment) :: logs, e)
    else
      match ensureDir fs (joinPath dirName attachment) with
      | none => (fs, [], some (.mkdirFailed (joinPath dirName attachment)))
      | some fs1 =>
        match fs1.rename (joinPath srcDir attachment) (joinPath dirName attachment) with
        | none =>
          (fs1, [], some (.renameFailed (joinPath srcDir attachment) (joinPath dirName attachment)))
        | some fs2 => mtdAtts fs2 srcDir dirName rest

/-- `File.MoveToDir` (file.go): rename the primary file to the collision-
safe destination, then move the attachments, reading their source
directory from `f.path`—which this operation never updates. -/
def File.MoveToDir (f : File) (fs : Fs) (dirName : String) : MoveOut :=
  match fs.rename f.path (moveToDirDest f fs dirName) with
  | none => ⟨f, fs, [], some (.renameFailed f.path (moveToDirDest f fs dirName))⟩
  | some fs1 =>
    if f.attachments.isEmpty then ⟨f, fs1, [], none⟩
    else
      match mtdAtts fs1 (dirPath f.path) dirName f.attachments with
      | (fs2, logs, e) => ⟨f, fs2, logs, e⟩

/-! ### The Move Planner (`moveFiles`, main.go) -/

/-- `replaceTemplates`: path separators inside the title become
underscores, then the first `%title%` in the template is replaced. -/
def replaceTemplates (tpl title : String) : String :=
  let escaped : String := ⟨title.data.map (fun c => if c = '/' then '_' else c)⟩
  replaceFirstStr tpl "%title%" escaped

/-- `isTemplate`: `(isTemplate, error)`—a destination containing `'%'`
must contain the literal `%title%`. -/
def isTemplate (path : String) : Bool × Option MvError :=
  if !containsSubstr path "%" then (false, none)
  else if !containsSubstr path "%title%" then (false, some .wrongTemplate)
  else (true, none)

/-- The template branch of `moveFiles`: move each file to its
substituted destination, stopping at the first error (files already
processed keep their updated state). -/
def moveAllTpl (fs : Fs) (dest : String) :
    List File → List File × Fs × List String × Option MvError
  | [] => ([], fs, [], none)
  | f :: rest =>
    match File.Move f fs (replaceTemplates dest f.title) with
    | ⟨f1, fs1, logs1, some e⟩ => (f1 :: rest, fs1, logs1, some e)
    | ⟨f1, fs1, logs1, none⟩ =>
      match moveAllTpl fs1 dest rest with
      | (fl, fs2, logs2, e) => (f1 :: fl, fs2, logs1 ++ logs2, e)

/-- The directory branch of `moveFiles`: move each file into the
directory, stopping at the first error. -/
def moveAllDir (fs : Fs) (dirName : String) :
    List File → List File × Fs × List String × Option MvError
  | [] => ([], fs, [], none)
  | f :: rest =>
    match File.MoveToDir f fs dirName with
    | ⟨f1, fs1, logs1, some e⟩ => (f1 :: rest, fs1, logs1, some e)
    | ⟨f1, fs1, logs1, none⟩ =>
      match moveAllDir fs1 dirName rest with
      | (fl, fs2, logs2, e) => (f1 :: fl, fs2, logs1 ++ logs2, e)

/-- `moveFiles` (main.go): empty batch fails; a template destination is
substituted per file; an existing directory receives every file; a
literal destination is an error for more than one file and a direct
`Move` for exactly one. -/
def moveFiles (fs : Fs) (files : List File) (dest : String) :
    List File × Fs × List String × Option MvError :=
  match files with
  | [] => ([], fs, [], some .noFilesToMove)
  | f :: rest =>
    match isTemplate dest with
    | (_, some e) => (f :: rest, fs, [], some e)
    | (true, none) => moveAllTpl fs dest (f :: rest)
    | (false, none) =>
      if fs.isDirB dest then moveAllDir fs dest (f :: rest)
      else if rest.isEmpty = false then (f :: rest, fs, [], some .moveMultiple)
      else
        match File.Move f fs dest with
        | ⟨f1, fs1, logs1, e⟩ => ([f1], fs1, logs1, e)

/-! ### The Cleanup Sweeper (`cleanUp`, main.go) -/

/-- Insert into a descending-sorted list, keeping it descending. -/
def insertDesc (x : String) : List String → List String
  | [] => [x]
  | y :: rest => if x > y then x :: y :: rest else y :: insertDesc x rest

/-- `sort.Sort(sort.Reverse(sort.StringSlice(keys)))`: descending lexical
order (insertion sort; Go's unstable sort yields the same sequence). -/
def sortDesc : List String → List String
  | [] => []
  | x :: rest => insertDesc x (sortDesc rest)

/-- The loop of `cleanUp` over the sorted candidates: a directory that no
longer exists is skipped; an existing empty one is removed.  `DirExists`,
`IsEmpty` and `Remove` are total in the idealized filesystem, so the
fatal branches of the Go code are unreachable here. -/
def cleanUpLoop (fs : Fs) : List String → Fs
  | [] => fs
  | dir :: rest =>
    if fs.dirExistsB dir = false then cleanUpLoop fs rest
    else if fs.isEmptyDir dir then cleanUpLoop (fs.removeDir dir) rest
    else cleanUpLoop fs rest

/-- `cleanUp` (main.go): sweep the candidate directories deepest-first;
returns the swept filesystem and the (always absent) fatal error. -/
def cleanUp (fs : Fs) (keys : List String) : Fs × Option MvError :=
  (cleanUpLoop fs (sortDesc keys), none)

/-- The Cleanup Sweeper as the spec words it (§4.5): process the
candidates in descending lexical order and delete exactly those that
still exist and are empty at their turn.  Used as the reference shape for
the refinement proof about `cleanUp`. -/
def cleanupSweepSpec (fs : Fs) (keys : List String) : Fs :=
  (sortDesc keys).foldl
    (fun s d => if s.dirExistsB d && s.isEmptyDir d then s.removeDir d else s) fs

/-! ### Supporting lemmas -/

theorem contains_mem {l : List String} {a : String} : l.contains a = true ↔ a ∈ l :=
  List.elem_iff

theorem slash_append_ne_empty (s : String) : "/" ++ s ≠ "" := by
  intro h
  have hd := congrArg String.data h
  rw [String.data_append] at hd
  have h1 : ("/" : String).data = ['/'] := rfl
  rw [h1] at hd
  simp at hd

theorem append_slash_ne_empty (x z : String) : x ++ "/" ++ z ≠ "" := by
  intro h
  have hd := congrArg String.data h
  rw [String.data_append, String.data_append] at hd
  have h1 : ("/" : String).data = ['/'] := rfl
  rw [h1] at hd
  simp [List.append_eq_nil] at hd

theorem intercalateSlash_ne_empty :
    ∀ l : List String, (∀ x ∈ l, x ≠ "") → l ≠ [] → intercalateSlash l ≠ ""
  | [], _, hne => absurd rfl hne
  | [x], h, _ => by simpa [intercalateSlash] using h x (by simp)
  | x :: y :: rest, _, _ => by
    simp only [intercalateSlash]
    exact append_slash_ne_empty _ _

theorem cleanStep_mem_ne_empty (abs : Bool) (acc : List String) (c : String)
    (hacc : ∀ x ∈ acc, x ≠ "") (hc : c ≠ "") :
    ∀ x ∈ cleanStep abs acc c, x ≠ "" := by
  intro x hx
  unfold cleanStep at hx
  split at hx
  · exact hacc x hx
  · split at hx
    · cases hl : acc.getLast? with
      | none =>
        rw [hl] at hx
        simp at hx
        rcases hx with ⟨-, hx⟩
        subst hx
        decide
      | some a =>
        rw [hl] at hx
        dsimp only at hx
        by_cases ha : a = ".."
        · rw [if_pos ha] at hx
          rcases List.mem_append.1 hx with h | h
          · exact hacc x h
          · simp at h
            subst h
            decide
        · rw [if_neg ha] at hx
          exact hacc x (List.dropLast_subset _ hx)
    · rcases List.mem_append.1 hx with h | h
      · exact hacc x h
      · simp at h
        subst h
        exact hc

theorem foldl_cleanStep_ne_empty (abs : Bool) :
    ∀ (cs : List String) (acc : List String),
      (∀ x ∈ acc, x ≠ "") → (∀ c ∈ cs, c ≠ "") →
      ∀ x ∈ cs.foldl (cleanStep abs) acc, x ≠ ""
  | [], _, hacc, _ => hacc
  | c :: cs, acc, hacc, hcs => by
    simp only [List.foldl_cons]
    exact foldl_cleanStep_ne_empty abs cs _
      (cleanStep_mem_ne_empty abs acc c hacc (hcs c (by simp)))
      (fun d hd => hcs d (by simp [hd]))

theorem pathComponents_ne_empty (p : String) : ∀ c ∈ pathComponents p, c ≠ "" := by
  intro c hc
  unfold pathComponents at hc
  have := (List.mem_filter.1 hc).2
  simpa using this

theorem cleanPathAux_ne_empty (abs : Bool) (comps : List String)
    (h : ∀ x ∈ comps, x ≠ "") : cleanPathAux abs comps ≠ "" := by
  unfold cleanPathAux
  split
  · exact slash_append_ne_empty _
  · split
    · decide
    · exact intercalateSlash_ne_empty _ h (by assumption)

theorem cleanPath_ne_empty (p : String) : cleanPath p ≠ "" :=
  cleanPathAux_ne_empty _ _
    (foldl_cleanStep_ne_empty _ _ _ (by simp) (pathComponents_ne_empty p))

theorem dirPath_ne_empty (p : String) : dirPath p ≠ "" :=
  cleanPath_ne_empty _

theorem ensureDir_files {fs fs1 : Fs} {dest : String} (h : ensureDir fs dest = some fs1) :
    fs1.files = fs.files := by
  unfold ensureDir at h
  split at h
  · cases h
    rfl
  · unfold Fs.mkdirAll at h
    split at h
    · cases h
    · cases h
      rfl

theorem ensureDir_dirExists {fs fs1 : Fs} {dest : String} (h : ensureDir fs dest = some fs1) :
    fs1.dirExistsB (dirPath dest) = true := by
  unfold ensureDir at h
  split at h
  · cases h
    assumption
  · rename_i hnd
    have hnd' : fs.dirExistsB (dirPath dest) = false := by
      cases he : fs.dirExistsB (dirPath dest)
      · rfl
      · exact absurd he hnd
    simp only [Fs.dirExistsB, Bool.or_eq_false_iff, decide_eq_false_iff_not] at hnd'
    obtain ⟨⟨hc, hdot⟩, hslash⟩ := hnd'
    unfold Fs.mkdirAll at h
    split at h
    · cases h
    · cases h
      simp only [Fs.dirExistsB, Bool.or_eq_true, decide_eq_true_eq]
      left
      left
      rw [contains_mem]
      apply List.mem_append_left
      rw [List.mem_filter]
      constructor
      · unfold parentChain
        rw [if_neg]
        · exact List.mem_cons_self _ _
        · simp [hdot, hslash, dirPath_ne_empty dest]
      · rw [hc]
        rfl

theorem ensureDir_dirExists_mono {fs fs1 : Fs} {dest d : String}
    (h : ensureDir fs dest = some fs1) (hd : fs.dirExistsB d = true) :
    fs1.dirExistsB d = true := by
  unfold ensureDir at h
  split at h
  · cases h
    exact hd
  · unfold Fs.mkdirAll at h
    split at h
    · cases h
    · cases h
      simp only [Fs.dirExistsB, Bool.or_eq_true, decide_eq_true_eq] at hd ⊢
      rcases hd with (hc | hdot) | hslash

      · left
        left
        rw [contains_mem] at hc ⊢
        exact List.mem_append_right _ hc
      · left
        right
        exact hdot
      · right
        exact hslash

theorem rename_eq {fs fs2 : Fs} {src dst : String} (h : fs.rename src dst = some fs2) :
    fs2.files = dst :: fs.files.filter (fun p => p ≠ src && p ≠ dst) ∧
      fs2.dirs = fs.dirs ∧ src ∈ fs.files := by
  unfold Fs.rename at h
  split at h
  · cases h
    refine ⟨rfl, rfl, ?_⟩
    rw [← contains_mem]
    assumption
  · cases h

theorem rename_mem_iff {fs fs2 : Fs} {src dst p : String} (h : fs.rename src dst = some fs2) :
    p ∈ fs2.files ↔ p = dst ∨ (p ∈ fs.files ∧ p ≠ src ∧ p ≠ dst) := by
  rw [(rename_eq h).1]
  simp [List.mem_filter, and_assoc]

/-- A present file stays present through a successful attachment sweep as
long as it is not one of the swept sources. -/
theorem moveAtts_mem_mono :
    ∀ (atts : List String) {fs fs3 : Fs} {dir destDir p : String},
      moveAtts fs dir destDir atts = (fs3, none) →
      p ∈ fs.files → (∀ a ∈ atts, joinPath dir a ≠ p) → p ∈ fs3.files
  | [], fs, fs3, dir, destDir, p, h, hp, _ => by
    unfold moveAtts at h
    cases h
    exact hp
  | att :: rest, fs, fs3, dir, destDir, p, h, hp, hsrc => by
    unfold moveAtts at h
    cases h1 : ensureDir fs (joinPath destDir att) with
    | none =>
      rw [h1] at h
      simp at h
    | some fs1 =>
      rw [h1] at h
      dsimp only at h
      cases h2 : fs1.rename (joinPath dir att) (joinPath destDir att) with
      | none =>
        rw [h2] at h
        simp at h
      | some fs2 =>
        rw [h2] at h
        refine moveAtts_mem_mono rest h ?_ (fun a ha => hsrc a (List.mem_cons_of_mem _ ha))
        rcases eq_or_ne p (joinPath destDir att) with hpd | hpd
        · rw [rename_mem_iff h2]
          exact Or.inl hpd
        · rw [rename_mem_iff h2]
          refine Or.inr ⟨?_, ?_, hpd⟩
          · rw [ensureDir_files h1]
            exact hp
          · intro hh
            exact hsrc att (List.mem_cons_self _ _) hh.symm

/-- An absent file stays absent through a successful attachment sweep as
long as it is not one of the swept destinations. -/
theorem moveAtts_not_mem :
    ∀ (atts : List String) {fs fs3 : Fs} {dir destDir p : String},
      moveAtts fs dir destDir atts = (fs3, none) →
      p ∉ fs.files → (∀ a ∈ atts, joinPath destDir a ≠ p) → p ∉ fs3.files
  | [], fs, fs3, dir, destDir, p, h, hp, _ => by
    unfold moveAtts at h
    cases h
    exact hp
  | att :: rest, fs, fs3, dir, destDir, p, h, hp, hdst => by
    unfold moveAtts at h
    cases h1 : ensureDir fs (joinPath destDir att) with
    | none =>
      rw [h1] at h
      simp at h
    | some fs1 =>
      rw [h1] at h
      dsimp only at h
      cases h2 : fs1.rename (joinPath dir att) (joinPath destDir att) with
      | none =>
        rw [h2] at h
        simp at h
      | some fs2 =>
        rw [h2] at h
        refine moveAtts_not_mem rest h ?_ (fun a ha => hdst a (List.mem_cons_of_mem _ ha))
        rw [rename_mem_iff h2]
        rintro (hh | ⟨hmem, -, -⟩)
        · exact hdst att (List.mem_cons_self _ _) hh.symm
        · rw [ensureDir_files h1] at hmem
          exact hp hmem

/-- Directory existence is monotone through a successful attachment
sweep. -/
theorem moveAtts_dirExists_mono :
    ∀ (atts : List String) {fs fs3 : Fs} {dir destDir d : String},
      moveAtts fs dir destDir atts = (fs3, none) →
      fs.dirExistsB d = true → fs3.dirExistsB d = true
  | [], fs, fs3, dir, destDir, d, h, hd => by
    unfold moveAtts at h
    cases h
    exact hd
  | att :: rest, fs, fs3, dir, destDir, d, h, hd => by
    unfold moveAtts at h
    cases h1 : ensureDir fs (joinPath destDir att) with
    | none =>
      rw [h1] at h
      simp at h
    | some fs1 =>
      rw [h1] at h
      dsimp only at h
      cases h2 : fs1.rename (joinPath dir att) (joinPath destDir att) with
      | none =>
        rw [h2] at h
        simp at h
      | some fs2 =>
        rw [h2] at h
        refine moveAtts_dirExists_mono rest h ?_
        have hdirs := (rename_eq h2).2.1
        have h1d := ensureDir_dirExists_mono h1 hd
        simp only [Fs.dirExistsB, hdirs] at h1d ⊢
        exact h1d

/-- Main invariant of the attachment sweep of `File.Move`: when it
succeeds and no attachment's destination path coincides with any
attachment's source path, every attachment ends up present at its
destination and absent from its source. -/
theorem moveAtts_correct :
    ∀ (atts : List String) {fs fs3 : Fs} {dir destDir : String},
      moveAtts fs dir destDir atts = (fs3, none) →
      (∀ a ∈ atts, ∀ b ∈ atts, joinPath destDir a ≠ joinPath dir b) →
      ∀ a ∈ atts, joinPath destDir a ∈ fs3.files ∧ joinPath dir a ∉ fs3.files
  | [], fs, fs3, dir, destDir, _, _ => by
    intro a ha
    simp at ha
  | att :: rest, fs, fs3, dir, destDir, h, hsep => by
    intro a ha
    unfold moveAtts at h
    cases h1 : ensureDir fs (joinPath destDir att) with
    | none =>
      rw [h1] at h
      simp at h
    | some fs1 =>
      rw [h1] at h
      dsimp only at h
      cases h2 : fs1.rename (joinPath dir att) (joinPath destDir att) with
      | none =>
        rw [h2] at h
        simp at h
      | some fs2 =>
        rw [h2] at h
        rcases List.mem_cons.1 ha with rfl | ha'
        · constructor
          · refine moveAtts_mem_mono rest h ?_ ?_
            · rw [rename_mem_iff h2]
              exact Or.inl rfl
            · intro b hb hh
              exact hsep a (List.mem_cons_self _ _) b (List.mem_cons_of_mem _ hb) hh.symm
          · refine moveAtts_not_mem rest h ?_ ?_
            · rw [rename_mem_iff h2]
              rintro (hh | ⟨-, hne, -⟩)
              · exact hsep a (List.mem_cons_self _ _) a (List.mem_cons_self _ _) hh.symm
              · exact hne rfl
            · intro b hb
              exact hsep b (List.mem_cons_of_mem _ hb) a (List.mem_cons_self _ _)
        · exact moveAtts_correct rest h
            (fun x hx y hy =>
              hsep x (List.mem_cons_of_mem _ hx) y (List.mem_cons_of_mem _ hy)) a ha'

/-- A non-empty running title is never reassigned by the scanning fold. -/
theorem scanTitle_foldl_const :
    ∀ (lines : List String) (t : String), t ≠ "" →
      lines.foldl (fun title line => if title = "" then lineTitle line else title) t = t
  | [], _, _ => rfl
  | _ :: lines, t, ht => by
    simp only [List.foldl_cons, if_neg ht]
    exact scanTitle_foldl_const lines t ht

/-- Head step of the `MoveToDir` attachment loop at a missing source:
the warning is logged, the filesystem is left untouched, no error is
contributed, and the loop continues with the remaining attachments. -/
theorem mtdAtts_cons_missing (g : Fs) (srcDir dirName a : String) (rest : List String)
    (hmiss : g.existsB (joinPath srcDir a) = false) :
    mtdAtts g srcDir dirName (a :: rest) =
      ((mtdAtts g srcDir dirName rest).1,
        ("attachment is missing: " ++ joinPath srcDir a) ::
          (mtdAtts g srcDir dirName rest).2.1,
        (mtdAtts g srcDir dirName rest).2.2) := by
  simp only [mtdAtts]
  rw [if_pos hmiss]

/-- Continuation property of the attachment loop: whatever the earlier
attachments did, when the loop reaches a missing one (after a prefix that
completed without error, in state `g`) it logs the warning, changes
nothing, contributes no error, and continues with the remaining
attachments from the same state. -/
theorem mtdAtts_append_missing :
    ∀ (pre : List String) (g0 g : Fs) (srcDir dirName a : String) (post logs : List String),
      mtdAtts g0 srcDir dirName pre = (g, logs, none) →
      g.existsB (joinPath srcDir a) = false →
      mtdAtts g0 srcDir dirName (pre ++ a :: post) =
        ((mtdAtts g srcDir dirName post).1,
          logs ++ ("attachment is missing: " ++ joinPath srcDir a) ::
            (mtdAtts g srcDir dirName post).2.1,
          (mtdAtts g srcDir dirName post).2.2)
  | [], g0, g, srcDir, dirName, a, post, logs, hpre, hmiss => by
    simp only [mtdAtts, Prod.mk.injEq] at hpre
    obtain ⟨rfl, rfl, -⟩ := hpre
    simp only [List.nil_append]
    exact mtdAtts_cons_missing g0 srcDir dirName a post hmiss
  | p :: pre', g0, g, srcDir, dirName, a, post, logs, hpre, hmiss => by
    by_cases hp : g0.existsB (joinPath srcDir p) = false
    · rw [mtdAtts_cons_missing g0 srcDir dirName p pre' hp] at hpre
      cases hP : mtdAtts g0 srcDir dirName pre' with
      | mk x r =>
        cases r with
        | mk l e =>
          rw [hP] at hpre
          simp only [Prod.mk.injEq] at hpre
          obtain ⟨rfl, hl, he⟩ := hpre
          subst hl
          subst he
          have hfull := mtdAtts_append_missing pre' g0 x srcDir dirName a post l hP hmiss
          rw [List.cons_append]
          rw [mtdAtts_cons_missing g0 srcDir dirName p (pre' ++ a :: post) hp]
          rw [hfull]
          simp
    · cases hE : ensureDir g0 (joinPath dirName p) with
      | none =>
        simp only [mtdAtts] at hpre
        rw [if_neg hp, hE] at hpre
        simp at hpre
      | some g1 =>
        cases hR : g1.rename (joinPath srcDir p) (joinPath dirName p) with
        | none =>
          simp only [mtdAtts] at hpre
          rw [if_neg hp, hE] at hpre
          dsimp only at hpre
          rw [hR] at hpre
          simp at hpre
        | some g2 =>
          have hpre' : mtdAtts g2 srcDir dirName pre' = (g, logs, none) := by
            simp only [mtdAtts] at hpre
            rw [if_neg hp, hE] at hpre
            dsimp only at hpre
            rw [hR] at hpre
            exact hpre
          rw [List.cons_append]
          simp only [mtdAtts]
          rw [if_neg hp, hE]
          dsimp only
          rw [hR]
          exact mtdAtts_append_missing pre' g2 g srcDir dirName a post logs hpre' hmiss

/-- A present file survives the attachment loop—error or not—as long as
no attachment source names it. -/
theorem mtdAtts_mem_mono :
    ∀ (atts : List String) (g : Fs) (srcDir dirName p : String),
      p ∈ g.files → (∀ b ∈ atts, joinPath srcDir b ≠ p) →
      p ∈ (mtdAtts g srcDir dirName atts).1.files
  | [], _, _, _, _, hp, _ => hp
  | b :: rest, g, srcDir, dirName, p, hp, hb => by
    by_cases hmiss : g.existsB (joinPath srcDir b) = false
    · rw [mtdAtts_cons_missing g srcDir dirName b rest hmiss]
      exact mtdAtts_mem_mono rest g srcDir dirName p hp
        (fun c hc => hb c (List.mem_cons_of_mem _ hc))
    · cases hE : ensureDir g (joinPath dirName b) with
      | none =>
        simp only [mtdAtts]
        rw [if_neg hmiss, hE]
        exact hp
      | some g1 =>
        cases hR : g1.rename (joinPath srcDir b) (joinPath dirName b) with
        | none =>
          simp only [mtdAtts]
          rw [if_neg hmiss, hE]
          dsimp only
          rw [hR]
          dsimp only
          rw [ensureDir_files hE]
          exact hp
        | some g2 =>
          simp only [mtdAtts]
          rw [if_neg hmiss, hE]
          dsimp only
          rw [hR]
          show p ∈ (mtdAtts g2 srcDir dirName rest).1.files
          refine mtdAtts_mem_mono rest g2 srcDir dirName p ?_
            (fun c hc => hb c (List.mem_cons_of_mem _ hc))
          rcases eq_or_ne p (joinPath dirName b) with rfl | hpd
          · exact (rename_mem_iff hR).2 (Or.inl rfl)
          · refine (rename_mem_iff hR).2 (Or.inr ⟨?_, ?_, hpd⟩)
            · rw [ensureDir_files hE]
              exact hp
            · intro hh
              exact hb b (List.mem_cons_self _ _) hh.symm

/-- A string containing a pattern also contains the pattern's head. -/
theorem containsChars_head {p : Char} {ps : List Char} :
    ∀ l : List Char, containsChars (p :: ps) l = true → containsChars [p] l = true
  | [], h => by simp [containsChars] at h
  | c :: rest, h => by
    simp only [containsChars, Bool.or_eq_true] at h ⊢
    rcases h with h | h
    · left
      simp only [List.isPrefixOf, Bool.and_eq_true] at h ⊢
      exact ⟨h.1, trivial⟩
    · right
      exact containsChars_head rest h

/-- A destination containing `%title%` contains `%`. -/
theorem containsSubstr_percent (s : String)
    (h : containsSubstr s "%title%" = true) : containsSubstr s "%" = true := by
  have hd : ("%title%" : String).data = '%' :: ("title%" : String).data := rfl
  have h1 : ("%" : String).data = ['%'] := rfl
  unfold containsSubstr at h ⊢
  rw [hd] at h
  rw [h1]
  exact containsChars_head _ h

/-! ### Claim C2 — title extraction -/

/-- C2 counterexample: on the file `["abc #def", "# Real"]` the parser
produces the title `"def"`—the tail of the first line after its first
`'#'`—which is neither the full text of the first line matching the
heading pattern (`"abc #def"`) nor the text of the first line that is a
heading (`"Real"`), contradicting the claim under either reading. -/
theorem claimC2_counterexample :
    scanTitle ["abc #def", "# Real"] = "def" ∧
      scanTitle ["abc #def", "# Real"] ≠ "abc #def" ∧
      scanTitle ["abc #def", "# Real"] ≠ "Real" := by
  decide

/-- C2 (amended): the parser derives from each line the substring from
the line's first `'#'` to the end of the line, stripped of leading spaces
and `'#'` characters (trailing whitespace is retained, and a line without
`'#'` yields the empty string); the title is the first non-empty such
value over the file's lines in order, and the empty string when every
line yields an empty value. -/
theorem claimC2_title_first_heading (lines : List String) :
    scanTitle lines = ((lines.map lineTitle).filter (fun t => t ≠ "")).headD "" := by
  induction lines with
  | nil => rfl
  | cons l ls ih =>
    simp only [scanTitle, List.foldl_cons, List.map_cons, List.filter_cons] at *
    rw [if_pos trivial]
    by_cases hl : lineTitle l = ""
    · rw [hl, ih]
      simp [hl]
    · rw [scanTitle_foldl_const ls _ hl]
      simp [hl]

/-! ### Claim C4 — invalid template -/

/-- C4: for a non-empty batch and a destination containing `'%'` but not
`%title%`, `moveFiles` fails with the wrong-template error, moves
nothing, and leaves the filesystem untouched. -/
theorem claimC4_invalid_template (fs : Fs) (f : File) (rest : List File) (dest : String)
    (h1 : containsSubstr dest "%" = true) (h2 : containsSubstr dest "%title%" = false) :
    moveFiles fs (f :: rest) dest = (f :: rest, fs, [], some .wrongTemplate) := by
  simp [moveFiles, isTemplate, h1, h2]

theorem claimC4_witness :
    moveFiles ⟨[], []⟩ [⟨"a.md", "", []⟩] "dest%" =
      ([⟨"a.md", "", []⟩], ⟨[], []⟩, [], some .wrongTemplate) :=
  claimC4_invalid_template _ _ _ _ (by decide) (by decide)

/-! ### Claim C5 — literal destination -/

/-- C5: for a destination with no `'%'` that is not an existing
directory, a batch of two or more documents fails with the
multiple-files error and performs no moves, while a single document is
moved to the literal destination directly. -/
theorem claimC5_literal_destination (fs : Fs) (dest : String)
    (h1 : containsSubstr dest "%" = false) (h2 : fs.isDirB dest = false) :
    (∀ (f1 f2 : File) (rest : List File),
        moveFiles fs (f1 :: f2 :: rest) dest =
          (f1 :: f2 :: rest, fs, [], some .moveMultiple)) ∧
      ∀ f : File, moveFiles fs [f] dest =
        ([(File.Move f fs dest).file], (File.Move f fs dest).fs,
          (File.Move f fs dest).logs, (File.Move f fs dest).error) := by
  constructor
  · intro f1 f2 rest
    simp [moveFiles, isTemplate, h1, h2]
  · intro f
    cases hm : File.Move f fs dest with
    | mk f1 fs1 logs1 e =>
      simp [moveFiles, isTemplate, h1, h2, hm]

theorem claimC5_witness :
    moveFiles ⟨[], []⟩ [⟨"a.md", "", []⟩, ⟨"b.md", "", []⟩] "x.md" =
        ([⟨"a.md", "", []⟩, ⟨"b.md", "", []⟩], ⟨[], []⟩, [], some .moveMultiple) ∧
      moveFiles ⟨["c.md"], []⟩ [⟨"c.md", "", []⟩] "x.md" =
        ([(File.Move ⟨"c.md", "", []⟩ ⟨["c.md"], []⟩ "x.md").file],
          (File.Move ⟨"c.md", "", []⟩ ⟨["c.md"], []⟩ "x.md").fs,
          (File.Move ⟨"c.md", "", []⟩ ⟨["c.md"], []⟩ "x.md").logs,
          (File.Move ⟨"c.md", "", []⟩ ⟨["c.md"], []⟩ "x.md").error) :=
  ⟨(claimC5_literal_destination ⟨[], []⟩ "x.md" (by decide) (by decide)).1 _ _ _,
    (claimC5_literal_destination ⟨["c.md"], []⟩ "x.md" (by decide) (by decide)).2 _⟩

/-! ### Claim C3 — template substitution -/

/-- C3: for a destination containing `%title%`, the planner takes the
template branch; there each document is moved by a literal `Move` to the
template with `%title%` substituted by the document's title (separators
escaped to underscores, via `replaceTemplates`); in particular
`%title%/README.md` with title `"Sample file for testing purpose"`
yields `Sample file for testing purpose/README.md`. -/
theorem claimC3_template_substitution (fs : Fs) (dest : String)
    (ht : containsSubstr dest "%title%" = true) :
    (∀ (f : File) (rest : List File),
        moveFiles fs (f :: rest) dest = moveAllTpl fs dest (f :: rest)) ∧
      (∀ f : File, moveAllTpl fs dest [f] =
        ([(File.Move f fs (replaceTemplates dest f.title)).file],
          (File.Move f fs (replaceTemplates dest f.title)).fs,
          (File.Move f fs (replaceTemplates dest f.title)).logs,
          (File.Move f fs (replaceTemplates dest f.title)).error)) ∧
      replaceTemplates "%title%/README.md" "Sample file for testing purpose" =
        "Sample file for testing purpose/README.md" := by
  have hp := containsSubstr_percent dest ht
  refine ⟨?_, ?_, by decide⟩
  · intro f rest
    simp [moveFiles, isTemplate, hp, ht]
  · intro f
    cases hm : File.Move f fs (replaceTemplates dest f.title) with
    | mk f1 fs1 logs1 e =>
      cases e <;> simp [moveAllTpl, hm]

theorem claimC3_witness :
    moveFiles ⟨["sample.md"], []⟩ [⟨"sample.md", "T", []⟩] "%title%/README.md" =
        moveAllTpl ⟨["sample.md"], []⟩ "%title%/README.md" [⟨"sample.md", "T", []⟩] ∧
      replaceTemplates "%title%/README.md" "Sample file for testing purpose" =
        "Sample file for testing purpose/README.md" :=
  ⟨(claimC3_template_substitution ⟨["sample.md"], []⟩ "%title%/README.md" (by decide)).1 _ _,
    (claimC3_template_substitution ⟨[], []⟩ "%title%/README.md" (by decide)).2.2⟩

/-! ### Claim C7 — path update after a move -/

/-- C7 counterexample: a successful `MoveToDir` relocates
`src/a.md` to `d/a.md` but leaves the document's `path` field at
`src/a.md`, so the claim that both move operations update `path` in
place is false. -/
theorem claimC7_counterexample :
    (File.MoveToDir ⟨"src/a.md", "", []⟩ ⟨["src/a.md"], ["src", "d"]⟩ "d").error = none ∧
      "d/a.md" ∈ (File.MoveToDir ⟨"src/a.md", "", []⟩ ⟨["src/a.md"], ["src", "d"]⟩ "d").fs.files ∧
      (File.MoveToDir ⟨"src/a.md", "", []⟩ ⟨["src/a.md"], ["src", "d"]⟩ "d").file.path =
        "src/a.md" ∧
      (File.MoveToDir ⟨"src/a.md", "", []⟩ ⟨["src/a.md"], ["src", "d"]⟩ "d").file.path ≠
        "d/a.md" := by
  decide

/-- C7 (amended): only the literal `Move` updates the document's `path`
field (to the destination, on success); `MoveToDir` never modifies it—its
attachment logic deliberately reads the original directory from the stale
`path`. -/
theorem claimC7_path_update (fs : Fs) (f : File) (dest dirName : String) :
    ((File.Move f fs dest).error = none → (File.Move f fs dest).file.path = dest) ∧
      (File.MoveToDir f fs dirName).file.path = f.path := by
  constructor
  · intro hok
    cases h1 : ensureDir fs dest with
    | none =>
      unfold File.Move at hok
      rw [h1] at hok
      simp at hok
    | some fs1 =>
      cases h2 : fs1.rename f.path dest with
      | none =>
        unfold File.Move at hok
        rw [h1] at hok
        dsimp only at hok
        rw [h2] at hok
        simp at hok
      | some fs2 =>
        unfold File.Move
        rw [h1]
        dsimp only
        rw [h2]
        dsimp only
        split
        · rfl
        · cases hM : moveAtts fs2 (dirPath f.path) (dirPath dest) f.attachments with
          | mk fs3 e => rfl
  · unfold File.MoveToDir
    cases h1 : fs.rename f.path (moveToDirDest f fs dirName) with
    | none => rfl
    | some fs1 =>
      dsimp only
      split
      · rfl
      · cases hM : mtdAtts fs1 (dirPath f.path) dirName f.attachments with
        | mk fs2 r =>
          cases r with
          | mk logs e => rfl

theorem claimC7_witness :
    (File.Move ⟨"a.md", "", []⟩ ⟨["a.md"], []⟩ "b.md").file.path = "b.md" ∧
      (File.MoveToDir ⟨"src/a.md", "x", []⟩ ⟨["src/a.md"], ["src", "d"]⟩ "d").file.path =
        "src/a.md" :=
  ⟨(claimC7_path_update ⟨["a.md"], []⟩ ⟨"a.md", "", []⟩ "b.md" "d").1 (by decide),
    (claimC7_path_update ⟨["src/a.md"], ["src", "d"]⟩ ⟨"src/a.md", "x", []⟩ "b.md" "d").2⟩

/-! ### Claim C10 — path already set when an attachment move fails -/

/-- C10: whenever the destination directory could be ensured and the
primary rename succeeds (the stored path names an existing file), every
return of `File.Move`—including the error returns caused by a failing
attachment rename or attachment directory creation—carries
`path = dest`: the deferred assignment runs before `Move` returns. -/
theorem claimC10_path_set_on_error (fs fs1 : Fs) (f : File) (dest : String)
    (h1 : ensureDir fs dest = some fs1) (h2 : f.path ∈ fs1.files) :
    (File.Move f fs dest).file.path = dest := by
  unfold File.Move
  rw [h1]
  dsimp only
  cases h2' : fs1.rename f.path dest with
  | none =>
    unfold Fs.rename at h2'
    rw [if_pos (contains_mem.2 h2)] at h2'
    cases h2'
  | some fs2 =>
    dsimp only
    split
    · rfl
    · cases hM : moveAtts fs2 (dirPath f.path) (dirPath dest) f.attachments with
      | mk fs3 e => rfl

theorem claimC10_witness :
    (File.Move ⟨"old/doc.md", "", ["img.png"]⟩ ⟨["old/doc.md"], ["old", "new"]⟩
        "new/doc.md").error.isSome = true ∧
      (File.Move ⟨"old/doc.md", "", ["img.png"]⟩ ⟨["old/doc.md"], ["old", "new"]⟩
        "new/doc.md").file.path = "new/doc.md" :=
  ⟨by decide,
    claimC10_path_set_on_error ⟨["old/doc.md"], ["old", "new"]⟩ ⟨["old/doc.md"], ["old", "new"]⟩
      ⟨"old/doc.md", "", ["img.png"]⟩ "new/doc.md" (by decide) (by decide)⟩

/-! ### Claim C1 — attachment relocation by `Move` -/

/-- C1 counterexample: the attachment `../img.png` of `old/doc.md`
resolves to the same path (`img.png`) relative to both the old and the
new directory, so after a successful `Move` to `new/doc.md` the
attachment still exists at its original location, contradicting the
claim as stated. -/
theorem claimC1_counterexample :
    (File.Move ⟨"old/doc.md", "", ["../img.png"]⟩ ⟨["old/doc.md", "img.png"], ["old", "new"]⟩
        "new/doc.md").error = none ∧
      dirPath "old/doc.md" ≠ dirPath "new/doc.md" ∧
      joinPath (dirPath "old/doc.md") "../img.png" ∈
        (File.Move ⟨"old/doc.md", "", ["../img.png"]⟩ ⟨["old/doc.md", "img.png"], ["old", "new"]⟩
          "new/doc.md").fs.files := by
  decide

/-- C1 (amended): after a successful `Move` of a document with a
non-empty attachment list to a destination in a different directory,
every attachment exists at `<dir-of-dest>/<attachment>` and no longer
exists at `<original-dir>/<attachment>`, and the destination's directory
exists—provided no attachment's resolved destination path coincides with
any attachment's resolved source path (which `..` segments can cause). -/
theorem claimC1_attachments_relocated (fs : Fs) (f : File) (dest : String)
    (hok : (File.Move f fs dest).error = none)
    (hdir : dirPath f.path ≠ dirPath dest)
    (hne : f.attachments ≠ [])
    (hsep : ∀ a ∈ f.attachments, ∀ b ∈ f.attachments,
      joinPath (dirPath dest) a ≠ joinPath (dirPath f.path) b) :
    (∀ a ∈ f.attachments,
        joinPath (dirPath dest) a ∈ (File.Move f fs dest).fs.files ∧
          joinPath (dirPath f.path) a ∉ (File.Move f fs dest).fs.files) ∧
      (File.Move f fs dest).fs.dirExistsB (dirPath dest) = true := by
  have hcondn : ¬((decide (dirPath f.path = dirPath dest) || f.attachments.isEmpty) = true) := by
    simp [hdir, hne]
  cases h1 : ensureDir fs dest with
  | none =>
    unfold File.Move at hok
    rw [h1] at hok
    simp at hok
  | some fs1 =>
    cases h2 : fs1.rename f.path dest with
    | none =>
      unfold File.Move at hok
      rw [h1] at hok
      dsimp only at hok
      rw [h2] at hok
      simp at hok
    | some fs2 =>
      unfold File.Move at hok ⊢
      rw [h1] at hok ⊢
      dsimp only at hok ⊢
      rw [h2] at hok ⊢
      dsimp only at hok ⊢
      rw [if_neg hcondn] at hok ⊢
      cases hM : moveAtts fs2 (dirPath f.path) (dirPath dest) f.attachments with
      | mk fs3 e =>
        dsimp only at hok ⊢
        rw [hM] at hok
        dsimp only at hok
        subst hok
        constructor
        · exact moveAtts_correct f.attachments hM hsep
        · have hd1 := ensureDir_dirExists h1
          have hd2 : fs2.dirExistsB (dirPath dest) = true := by
            have hdirs := (rename_eq h2).2.1
            simp only [Fs.dirExistsB, hdirs]
            exact hd1
          exact moveAtts_dirExists_mono f.attachments hM hd2

theorem claimC1_witness :
    (∀ a ∈ (⟨"old/doc.md", "", ["img.png"]⟩ : File).attachments,
        joinPath (dirPath "new/doc.md") a ∈
          (File.Move ⟨"old/doc.md", "", ["img.png"]⟩
            ⟨["old/doc.md", "old/img.png"], ["old", "new"]⟩ "new/doc.md").fs.files ∧
          joinPath (dirPath "old/doc.md") a ∉
            (File.Move ⟨"old/doc.md", "", ["img.png"]⟩
              ⟨["old/doc.md", "old/img.png"], ["old", "new"]⟩ "new/doc.md").fs.files) ∧
      (File.Move ⟨"old/doc.md", "", ["img.png"]⟩
          ⟨["old/doc.md", "old/img.png"], ["old", "new"]⟩ "new/doc.md").fs.dirExistsB
        (dirPath "new/doc.md") = true :=
  claimC1_attachments_relocated ⟨["old/doc.md", "old/img.png"], ["old", "new"]⟩
    ⟨"old/doc.md", "", ["img.png"]⟩ "new/doc.md" (by decide) (by decide) (by decide) (by decide)

/-! ### Claim C6 — collision-safe naming in `MoveToDir` -/

/-- C6 counterexample: moving a file whose name collides with existing
`d/Photo2.md` produces `d/photo_1.md`—the stem is lowercased and the
bare trailing digit is stripped even without an underscore—not the
`d/Photo2_1.md` the claim predicts. -/
theorem claimC6_counterexample :
    uniqueName ⟨["d/Photo2.md"], ["d"]⟩ "d/Photo2.md" = "d/photo_1.md" ∧
      uniqueName ⟨["d/Photo2.md"], ["d"]⟩ "d/Photo2.md" ≠ "d/Photo2_1.md" := by
  decide

/-- C6 (amended): the target is `<dirName>/<base>` unchanged when free;
on collision the candidate is built from the lowercased filename with its
longest trailing run of underscores-then-digits stripped from the stem
and `_i` appended before the extension, `i` incrementing while the
candidate exists; three files named `index.md` moved into one directory
thus yield `index.md`, `index_1.md`, `index_2.md` in encounter order. -/
theorem claimC6_unique_name (fs : Fs) (dest : String) :
    (fs.existsB dest = false → uniqueName fs dest = dest) ∧
      (fs.existsB dest = true → fs.existsB (nextCandidate dest 1) = false →
        uniqueName fs dest = nextCandidate dest 1) ∧
      (File.MoveToDir ⟨"folder3/index.md", "", []⟩
          (File.MoveToDir ⟨"folder2/index.md", "", []⟩
            (File.MoveToDir ⟨"folder1/index.md", "", []⟩
              ⟨["folder1/index.md", "folder2/index.md", "folder3/index.md"],
                ["folder1", "folder2", "folder3", "folder"]⟩ "folder").fs "folder").fs
        "folder").fs.files =
        ["folder/index_2.md", "folder/index_1.md", "folder/index.md"] := by
  have e2 : fs.files.length + fs.dirs.length + 2 =
      fs.files.length + fs.dirs.length + 1 + 1 := rfl
  have e1 : fs.files.length + fs.dirs.length + 1 =
      fs.files.length + fs.dirs.length + 1 := rfl
  refine ⟨?_, ?_, by decide⟩
  · intro h
    unfold uniqueName
    rw [e2]
    unfold uniqueNameAux
    rw [h]
    simp
  · intro h1 h2
    unfold uniqueName
    rw [e2]
    unfold uniqueNameAux
    rw [h1]
    simp only [if_true]
    unfold uniqueNameAux
    rw [h2]
    simp

theorem claimC6_witness :
    uniqueName ⟨["a.md"], []⟩ "b.md" = "b.md" ∧
      uniqueName ⟨["folder/index.md"], ["folder"]⟩ "folder/index.md" =
        nextCandidate "folder/index.md" 1 :=
  ⟨(claimC6_unique_name ⟨["a.md"], []⟩ "b.md").1 (by decide),
    (claimC6_unique_name ⟨["folder/index.md"], ["folder"]⟩ "folder/index.md").2.1
      (by decide) (by decide)⟩

/-! ### Claim C8 — missing attachments are skipped by `MoveToDir` -/

/-- C8: for a document whose attachment list contains a missing path—at
any position, among present attachments—`MoveToDir` skips exactly that
attachment: (1) the primary file is already at the collision-safe
destination once the primary rename succeeded, before any attachment is
examined; (2) when the loop reaches an attachment whose source does not
exist (after any prefix of the list completed without error, in whatever
state it produced) it logs the missing-attachment warning, changes
nothing, contributes no error, and continues with the remaining
attachments; (3) when the loop finishes without error the whole
operation succeeds with those logs; (4) hence with such a missing
attachment in the list and the remaining attachments completing without
error, the operation returns no error and its logs contain the warning;
and (5) the moved primary file survives the loop whenever no attachment
source names its destination. -/
theorem claimC8_missing_attachment (fs fs1 : Fs) (f : File) (dirName : String)
    (h1 : fs.rename f.path (moveToDirDest f fs dirName) = some fs1) :
    moveToDirDest f fs dirName ∈ fs1.files ∧
      (∀ (pre post : List String) (a : String) (g : Fs) (logs : List String),
        mtdAtts fs1 (dirPath f.path) dirName pre = (g, logs, none) →
        g.existsB (joinPath (dirPath f.path) a) = false →
        mtdAtts fs1 (dirPath f.path) dirName (pre ++ a :: post) =
          ((mtdAtts g (dirPath f.path) dirName post).1,
            logs ++ ("attachment is missing: " ++ joinPath (dirPath f.path) a) ::
              (mtdAtts g (dirPath f.path) dirName post).2.1,
            (mtdAtts g (dirPath f.path) dirName post).2.2)) ∧
      (∀ (fs2 : Fs) (logs : List String),
        mtdAtts fs1 (dirPath f.path) dirName f.attachments = (fs2, logs, none) →
        File.MoveToDir f fs dirName = ⟨f, fs2, logs, none⟩) ∧
      (∀ (pre post : List String) (a : String) (g : Fs) (logs : List String),
        f.attachments = pre ++ a :: post →
        mtdAtts fs1 (dirPath f.path) dirName pre = (g, logs, none) →
        g.existsB (joinPath (dirPath f.path) a) = false →
        (mtdAtts g (dirPath f.path) dirName post).2.2 = none →
        (File.MoveToDir f fs dirName).error = none ∧
          ("attachment is missing: " ++ joinPath (dirPath f.path) a) ∈
            (File.MoveToDir f fs dirName).logs) ∧
      ((∀ b ∈ f.attachments, joinPath (dirPath f.path) b ≠ moveToDirDest f fs dirName) →
        moveToDirDest f fs dirName ∈
          (mtdAtts fs1 (dirPath f.path) dirName f.attachments).1.files) := by
  have hdest : moveToDirDest f fs dirName ∈ fs1.files := by
    rw [(rename_eq h1).1]
    exact List.mem_cons_self _ _
  have hB : ∀ (pre post : List String) (a : String) (g : Fs) (logs : List String),
      mtdAtts fs1 (dirPath f.path) dirName pre = (g, logs, none) →
      g.existsB (joinPath (dirPath f.path) a) = false →
      mtdAtts fs1 (dirPath f.path) dirName (pre ++ a :: post) =
        ((mtdAtts g (dirPath f.path) dirName post).1,
          logs ++ ("attachment is missing: " ++ joinPath (dirPath f.path) a) ::
            (mtdAtts g (dirPath f.path) dirName post).2.1,
          (mtdAtts g (dirPath f.path) dirName post).2.2) :=
    fun pre post a g logs hpre hmiss =>
      mtdAtts_append_missing pre fs1 g (dirPath f.path) dirName a post logs hpre hmiss
  have hC : ∀ (fs2 : Fs) (logs : List String),
      mtdAtts fs1 (dirPath f.path) dirName f.attachments = (fs2, logs, none) →
      File.MoveToDir f fs dirName = ⟨f, fs2, logs, none⟩ := by
    intro fs2 logs hrun
    unfold File.MoveToDir
    rw [h1]
    dsimp only
    by_cases he : f.attachments.isEmpty = true
    · rw [if_pos he]
      have hn : f.attachments = [] := List.isEmpty_iff.1 he
      rw [hn] at hrun
      simp only [mtdAtts, Prod.mk.injEq] at hrun
      obtain ⟨rfl, rfl, -⟩ := hrun
      rfl
    · rw [if_neg he]
      rw [hrun]
  refine ⟨hdest, hB, hC, ?_, ?_⟩
  · intro pre post a g logs hsplit hpre hmiss hrest
    have hfull := hB pre post a g logs hpre hmiss
    rw [← hsplit] at hfull
    cases hr : mtdAtts g (dirPath f.path) dirName post with
    | mk fsr r =>
      cases r with
      | mk logsr er =>
        rw [hr] at hfull
        dsimp only at hfull
        rw [hr] at hrest
        dsimp only at hrest
        subst hrest
        have hout := hC fsr
          (logs ++ ("attachment is missing: " ++ joinPath (dirPath f.path) a) :: logsr) hfull
        rw [hout]
        exact ⟨rfl, List.mem_append_right _ (List.mem_cons_self _ _)⟩
  · intro hsrc
    exact mtdAtts_mem_mono f.attachments fs1 (dirPath f.path) dirName _ hdest hsrc

theorem claimC8_witness :
    (File.MoveToDir ⟨"sample.md", "t", ["images/present.png", "images/missing.png"]⟩
        ⟨["sample.md", "images/present.png"], ["images", "new_folder"]⟩ "new_folder").error =
        none ∧
      ("attachment is missing: " ++ joinPath (dirPath "sample.md") "images/missing.png") ∈
        (File.MoveToDir ⟨"sample.md", "t", ["images/present.png", "images/missing.png"]⟩
          ⟨["sample.md", "images/present.png"], ["images", "new_folder"]⟩ "new_folder").logs :=
  (claimC8_missing_attachment ⟨["sample.md", "images/present.png"], ["images", "new_folder"]⟩
      ⟨["new_folder/sample.md", "images/present.png"], ["images", "new_folder"]⟩
      ⟨"sample.md", "t", ["images/present.png", "images/missing.png"]⟩ "new_folder"
      (by decide)).2.2.2.1
    ["images/present.png"] [] "images/missing.png"
    ⟨["new_folder/images/present.png", "new_folder/sample.md"],
      ["new_folder/images", "images", "new_folder"]⟩ []
    (by decide) (by decide) (by decide) (by decide)

/-! ### Claim C9 — the cleanup sweep -/

theorem cleanUpLoop_eq_foldl :
    ∀ (l : List String) (fs : Fs),
      cleanUpLoop fs l =
        l.foldl (fun s d => if s.dirExistsB d && s.isEmptyDir d then s.removeDir d else s) fs
  | [], _ => rfl
  | d :: l, fs => by
    simp only [cleanUpLoop, List.foldl_cons]
    by_cases h1 : fs.dirExistsB d = false
    · rw [if_pos h1, if_neg (by simp [h1])]
      exact cleanUpLoop_eq_foldl l fs
    · have h1' : fs.dirExistsB d = true := by simpa using h1
      rw [if_neg h1]
      by_cases h2 : fs.isEmptyDir d = true
      · rw [if_pos h2, if_pos (by simp [h1', h2])]
        exact cleanUpLoop_eq_foldl l _
      · have h2' : fs.isEmptyDir d = false := by simpa using h2
        rw [if_neg h2, if_neg (by simp [h2'])]
        exact cleanUpLoop_eq_foldl l fs

theorem sweep_foldl_files :
    ∀ (l : List String) (fs : Fs),
      (l.foldl (fun s d => if s.dirExistsB d && s.isEmptyDir d then s.removeDir d else s)
        fs).files = fs.files
  | [], _ => rfl
  | d :: l, fs => by
    simp only [List.foldl_cons]
    rw [sweep_foldl_files l _]
    split
    · rfl
    · rfl

theorem sweep_foldl_dirs_subset :
    ∀ (l : List String) (fs : Fs) (d : String),
      d ∈ ((l.foldl (fun s x => if s.dirExistsB x && s.isEmptyDir x then s.removeDir x else s)
        fs)).dirs → d ∈ fs.dirs
  | [], _, _ => fun h => h
  | x :: l, fs, d => by
    simp only [List.foldl_cons]
    intro h
    have h' := sweep_foldl_dirs_subset l _ d h
    revert h'
    split
    · intro h'
      exact (List.mem_filter.1 h').1
    · exact fun h' => h'

/-- C9: `cleanUp` refines the spec's sweep: it processes the candidates
in descending lexical order removing exactly the directories that still
exist and are empty at their turn, never fails (stat, emptiness check
and removal are total in the idealized filesystem, so the fatal branches
are unreachable), touches no files, and only ever removes directories. -/
theorem claimC9_cleanup_sweep (fs : Fs) (keys : List String) :
    cleanUp fs keys = (cleanupSweepSpec fs keys, none) ∧
      (cleanupSweepSpec fs keys).files = fs.files ∧
      ∀ d ∈ (cleanupSweepSpec fs keys).dirs, d ∈ fs.dirs := by
  refine ⟨?_, ?_, ?_⟩
  · unfold cleanUp cleanupSweepSpec
    rw [cleanUpLoop_eq_foldl]
  · unfold cleanupSweepSpec
    exact sweep_foldl_files _ _
  · intro d hd
    exact sweep_foldl_dirs_subset _ _ _ hd

end Mdmv
